import Mathlib

/-!
Verification development for the HGC_GLOBAL translation tool core:
the sheet-row parser (`SheetsParser`), the multi-language JSON handler
(`MultiLanguageJSONHandler`), and the JSON builder (`JSONBuilder`).

The JavaScript source is embedded shallowly:
* JavaScript runtime values that the core manipulates are modelled by the
  inductive type `JVal` (undefined, null, booleans, numbers, strings,
  arrays, objects); objects are association lists in insertion order,
  which is exactly the enumeration order JavaScript guarantees for
  string-keyed objects and for `Map`.
* `JSON.parse` is a host primitive; it is modelled as an explicit oracle
  parameter `jp : String → Option JVal` (`none` means the parse throws).
* All functions are pure; mutation in the source (always of freshly
  created objects, via spread copies) becomes ordinary value passing.
-/

/-- JavaScript runtime values, as far as the core manipulates them.
Numbers are modelled as integers (the core never does arithmetic on
cell values). Objects keep their fields in insertion order. -/
inductive JVal where
  | undefined : JVal
  | null : JVal
  | bool : Bool → JVal
  | num : Int → JVal
  | str : String → JVal
  | arr : List JVal → JVal
  | obj : List (String × JVal) → JVal
deriving Repr

/-- JavaScript truthiness of a `JVal` (`undefined`, `null`, `false`, `0`
and `""` are falsy; arrays and objects are always truthy). -/
def truthy : JVal → Bool
  | .undefined => false
  | .null => false
  | .bool b => b
  | .num n => n != 0
  | .str s => s != ""
  | .arr _ => true
  | .obj _ => true

/-- The JavaScript `a || b` operator on values. -/
def jsOr (a b : JVal) : JVal :=
  if truthy a then a else b

/-- Lookup in an insertion-ordered string-keyed object / `Map`
(first matching key wins; real JS objects have unique keys). -/
def mapGet : List (String × JVal) → String → Option JVal
  | [], _ => none
  | (k, v) :: rest, key => if k = key then some v else mapGet rest key

/-- JavaScript property assignment / `Map.set` on an insertion-ordered
object: updates the value in place when the key is present, otherwise
appends the new binding at the end. -/
def mapSet : List (String × JVal) → String → JVal → List (String × JVal)
  | [], key, v => [(key, v)]
  | (k, w) :: rest, key, v =>
      if k = key then (key, v) :: rest else (k, w) :: mapSet rest key v

/-- JavaScript property access `v[k]` (`undefined` when absent or when
`v` is a primitive or array without that string key). -/
def getField (v : JVal) (k : String) : JVal :=
  match v with
  | .obj fs => (mapGet fs k).getD .undefined
  | _ => .undefined

/-- JavaScript optional chaining `v?.k`. -/
def optGet (v : JVal) (k : String) : JVal :=
  match v with
  | .undefined => .undefined
  | .null => .undefined
  | _ => getField v k

/-- Own enumerable string-keyed properties of a value, as used by the
object spread `{...v}`: objects give their fields, arrays and strings
give index-keyed entries, other primitives give nothing. -/
def spreadable (v : JVal) : List (String × JVal) :=
  match v with
  | .obj fs => fs
  | .arr xs => xs.enum.map (fun p => (toString p.1, p.2))
  | .str s => s.data.enum.map (fun p => (toString p.1, JVal.str (String.singleton p.2)))
  | _ => []

/-- The object spread `{...a, ...b}`: fields of `b` written over a copy
of `a`, later keys winning. -/
def shallowMerge (a b : List (String × JVal)) : List (String × JVal) :=
  b.foldl (fun acc kv => mapSet acc kv.1 kv.2) a

/-- `typeof v === 'object'` (true for `null`, arrays and objects). -/
def typeofIsObject : JVal → Bool
  | .null => true
  | .arr _ => true
  | .obj _ => true
  | _ => false

/-- `APP_CONFIG.MULTI_LANGUAGE_JSON.LANGUAGE_CODES`. -/
def LANGUAGE_CODES : List String := ["en", "ja", "th"]

/-- The `dataType` selector (`'doctor'` / `'hospital'`). -/
inductive DataType where
  | doctor : DataType
  | hospital : DataType
deriving Repr, DecidableEq

/-- `APP_CONFIG.PERFORMANCE.JSON_CACHE.MAX_SIZE`. -/
def JSON_CACHE_MAX_SIZE : Nat := 100

/-- JavaScript `String.prototype.trim`: strip whitespace from both ends
(defined over the character list so that it evaluates by reduction). -/
def jsTrim (s : String) : String :=
  String.mk (((s.data.dropWhile Char.isWhitespace).reverse.dropWhile Char.isWhitespace).reverse)

namespace MultiLanguageJSONHandler

/-- `MultiLanguageJSONHandler.isValidLanguage`: membership in the
configured language-code set. -/
def isValidLanguage (language : String) : Bool :=
  LANGUAGE_CODES.contains language

/-- Top-level validation inside `parse`: the parsed value passes
`typeof parsed === 'object' && !Array.isArray(parsed) && parsed !== null`
exactly when it is a plain object. -/
def isPlainObject : JVal → Bool
  | .obj _ => true
  | _ => false

/-- `MultiLanguageJSONHandler.parse`, without the cache (the cached
variant is `parseCached` below; the two agree, see the cache theorems).
The input is a string or `none` for JavaScript `null`/`undefined`;
`jp` is the `JSON.parse` oracle. -/
def parse (jp : String → Option JVal) (jsonString : Option String) : JVal :=
  match jsonString with
  | none => .obj []
  | some s =>
      if s = "" ∨ jsTrim s = "" then .obj []
      else
        match jp s with
        | none => .obj []
        | some parsed => if isPlainObject parsed then parsed else .obj []

/-- `MultiLanguageJSONHandler._addToCache`: on a full cache the first
(oldest-inserted) key is deleted, then the new binding is set. -/
def _addToCache (maxSize : Nat) (cache : List (String × JVal)) (key : String) (value : JVal) :
    List (String × JVal) :=
  let cache1 :=
    if maxSize ≤ cache.length then
      match cache.head? with
      | some (firstKey, _) => cache.filter (fun e => e.1 ≠ firstKey)
      | none => cache
    else cache
  mapSet cache1 key value

/-- `MultiLanguageJSONHandler.parse` with the bounded cache
(`APP_CONFIG.PERFORMANCE.JSON_CACHE`): returns the parsed value and the
updated cache. Only successful plain-object parses are cached. -/
def parseCached (enabled : Bool) (maxSize : Nat) (jp : String → Option JVal)
    (cache : List (String × JVal)) (jsonString : Option String) :
    JVal × List (String × JVal) :=
  match jsonString with
  | none => (.obj [], cache)
  | some s =>
      if s = "" ∨ jsTrim s = "" then (.obj [], cache)
      else if enabled ∧ (mapGet cache s).isSome then ((mapGet cache s).getD (.obj []), cache)
      else
        match jp s with
        | none => (.obj [], cache)
        | some parsed =>
            if isPlainObject parsed then
              (parsed, if enabled then _addToCache maxSize cache s parsed else cache)
            else (.obj [], cache)

/-- `MultiLanguageJSONHandler.merge`: shallow copy of `existingJSON`
(or `\x7b\x7d` when not a truthy object), then, when the language code is
valid, the language entry is replaced by the spread-union of the current
entry (or `\x7b\x7d` when falsy) and `newData`, with `newData` keys winning. -/
def merge (existingJSON : JVal) (language : String) (newData : List (String × JVal)) : JVal :=
  let baseJSON : List (String × JVal) :=
    if truthy existingJSON ∧ typeofIsObject existingJSON then spreadable existingJSON else []
  if ¬ isValidLanguage language then .obj baseJSON
  else
    let cur : List (String × JVal) :=
      let v := (mapGet baseJSON language).getD .undefined
      if truthy v then spreadable v else []
    .obj (mapSet baseJSON language (.obj (shallowMerge cur newData)))

/-- `MultiLanguageJSONHandler.extractLanguage`: `json[language] || null`
when the language code is valid and `json` is truthy, else `null`
(modelled as `none`). -/
def extractLanguage (json : JVal) (language : String) : Option JVal :=
  if ¬ truthy json ∨ ¬ isValidLanguage language then none
  else
    let v := getField json language
    if truthy v then some v else none

/-- The content field name of each data type (`history` for doctors,
`description` for hospitals). -/
def contentKey : DataType → String
  | .doctor => "history"
  | .hospital => "description"

/-- `MultiLanguageJSONHandler.extractOldJSONValues`: picks the run
language's entry out of the parsed `old_json` and projects the `name`
and content fields, defaulting each to `""` via `||`; returns `\x7b\x7d`
(an empty object) when the language entry is absent or falsy. -/
def extractOldJSONValues (json : JVal) (language : String) (dataType : DataType) : JVal :=
  match extractLanguage json language with
  | none => .obj []
  | some langData =>
      .obj [("name", jsOr (getField langData "name") (.str "")),
            (contentKey dataType, jsOr (getField langData (contentKey dataType)) (.str ""))]

end MultiLanguageJSONHandler

/-- `sanitizeInput` (validators.js): assigning `textContent` on a fresh
`div` and reading back `innerHTML` HTML-escapes the text: `&`, `<`, `>`
and no-break space become entities, every other character is unchanged. -/
def escapeChar (c : Char) : String :=
  if c = '&' then "&amp;"
  else if c = '<' then "&lt;"
  else if c = '>' then "&gt;"
  else if c = Char.ofNat 160 then "&nbsp;"
  else String.singleton c

/-- Concatenation of the escapings of each character. -/
def escapeList : List Char → String
  | [] => ""
  | c :: cs => escapeChar c ++ escapeList cs

/-- `sanitizeInput` on a string input. -/
def sanitizeInput (input : String) : String :=
  escapeList input.data

/-- `APP_CONFIG.SHEET_COLUMNS.DOCTOR` / `.HOSPITAL`: the fixed 12-column
layout. Both data types use the same indices; the content column is
`kr_history`/`old_history`/... for doctors and
`kr_description`/`old_description`/... for hospitals, collapsed here
into `kr_content`/`old_content`/`manual_content`/`llm_content`. -/
structure ColumnStructure where
  id : Nat
  kr_name : Nat
  kr_content : Nat
  language : Nat
  old_name : Nat
  old_content : Nat
  old_json : Nat
  manual_name : Nat
  manual_content : Nat
  llm_name : Nat
  llm_content : Nat
  updated_json : Nat
deriving Repr, DecidableEq

/-- `APP_CONFIG.SHEET_COLUMNS`: identical indices for both data types. -/
def SHEET_COLUMNS (_dataType : DataType) : ColumnStructure :=
  ⟨0, 1, 2, 3, 4, 5, 6, 7, 8, 9, 10, 11⟩

/-- A decoded row (`parsedRow` in `SheetsParser.parseRow`). The derived
boolean flags that the source stores on the same object are pure
functions of these fields and are modelled as the functions
`hasManualOverride`, `hasLLMTranslation`, `hasOldValues`,
`hasContentChanged` and `needsTranslation` below. -/
structure RowModel where
  id : String
  kr_name : String
  kr_content : String
  language : String
  languageMismatch : Bool
  old_name : String
  old_content : String
  manual_name : String
  manual_content : String
  llm_name : String
  llm_content : String
  old_json : String
  old_json_parsed : JVal
  old_json_values : JVal
  updated_json : String
  rowIndex : JVal
deriving Repr

namespace SheetsParser

open MultiLanguageJSONHandler

/-- The local `getValue` helper of `parseRow`:
`index < row.length ? row[index] : ''`. -/
def getValue (row : List String) (index : Nat) : String :=
  row.getD index ""

/-- `SheetsParser.parseRow`: decode one raw row. `jp` is the
`JSON.parse` oracle used (through `MultiLanguageJSONHandler.parse`) on
the `old_json` cell; the parse cache is omitted here because it is
proved output-transparent for the handler (see the cache theorems). -/
def parseRow (jp : String → Option JVal) (row : List String) (dataType : DataType)
    (columnStructure : ColumnStructure) (expectedLanguage : String) : RowModel :=
  let language :=
    if getValue row columnStructure.language = "" then expectedLanguage
    else getValue row columnStructure.language
  let old_json := getValue row columnStructure.old_json
  let old_json_parsed := parse jp (some old_json)
  { id := getValue row columnStructure.id
    kr_name := sanitizeInput (getValue row columnStructure.kr_name)
    kr_content := sanitizeInput (getValue row columnStructure.kr_content)
    language := language
    languageMismatch := language ≠ "" ∧ language ≠ expectedLanguage
    old_name := sanitizeInput (getValue row columnStructure.old_name)
    old_content := sanitizeInput (getValue row columnStructure.old_content)
    manual_name := sanitizeInput (getValue row columnStructure.manual_name)
    manual_content := sanitizeInput (getValue row columnStructure.manual_content)
    llm_name := sanitizeInput (getValue row columnStructure.llm_name)
    llm_content := sanitizeInput (getValue row columnStructure.llm_content)
    old_json := old_json
    old_json_parsed := old_json_parsed
    old_json_values :=
      if truthy old_json_parsed ∧ language ≠ "" then
        extractOldJSONValues old_json_parsed language dataType
      else .obj []
    updated_json := getValue row columnStructure.updated_json
    rowIndex := match row with
      | [] => .null
      | cell :: _ => .str cell }

/-- `SheetsParser.hasManualOverride`:
`!!(row.manual_name || row.manual_<content>)`. -/
def hasManualOverride (row : RowModel) (_dataType : DataType) : Bool :=
  (row.manual_name != "") || (row.manual_content != "")

/-- `SheetsParser.hasLLMTranslation`:
`!!(row.llm_name || row.llm_<content>)`. -/
def hasLLMTranslation (row : RowModel) (_dataType : DataType) : Bool :=
  (row.llm_name != "") || (row.llm_content != "")

/-- `SheetsParser.hasOldValues`:
`!!(row.old_name || row.old_<content>)`. -/
def hasOldValues (row : RowModel) (_dataType : DataType) : Bool :=
  (row.old_name != "") || (row.old_content != "")

/-- `SheetsParser.hasContentChanged`: strict string inequality of the
Korean source fields against the old fields. -/
def hasContentChanged (row : RowModel) (_dataType : DataType) : Bool :=
  (row.kr_name != row.old_name) || (row.kr_content != row.old_content)

/-- `SheetsParser.needsTranslation`:
`hasNoLLM || (hasOldValues && hasContentChanged)`. -/
def needsTranslation (row : RowModel) (dataType : DataType) : Bool :=
  let hasNoLLM := ! hasLLMTranslation row dataType
  let contentChanged := hasOldValues row dataType && hasContentChanged row dataType
  hasNoLLM || contentChanged

/-- A per-row decode error (`errors` entries in `SheetsParser.parseRows`). -/
structure RowError where
  row : Nat
  error : String
  data : List String
deriving Repr, DecidableEq

/-- The result of `SheetsParser.parseRows` (the aggregate statistics
object, a pure tally over the same rows, is not modelled). -/
structure ParseRowsResult where
  data : List RowModel
  errors : List RowError
deriving Repr

/-- The error message thrown for a row missing `id` or `kr_name`. -/
def missingFieldsMessage : String := "Missing required fields: id or kr_name"

/-- The loop body of `SheetsParser.parseRows`, indexed from the position
of the first remaining row. -/
def parseRowsAux (jp : String → Option JVal) (dataType : DataType)
    (columnStructure : ColumnStructure) (language : String) :
    Nat → List (List String) → ParseRowsResult
  | _, [] => ⟨[], []⟩
  | index, row :: rest =>
      let result := parseRowsAux jp dataType columnStructure language (index + 1) rest
      let parsedRow := parseRow jp row dataType columnStructure language
      if parsedRow.id = "" ∨ parsedRow.kr_name = "" then
        ⟨result.data, ⟨index + 2, missingFieldsMessage, row⟩ :: result.errors⟩
      else
        ⟨parsedRow :: result.data, result.errors⟩

/-- `SheetsParser.parseRows`: decode every row, collecting rows that
fail the `id`/`kr_name` check into `errors` with the 1-based sheet row
number (`index + 2`, accounting for the header row). -/
def parseRows (jp : String → Option JVal) (rows : List (List String)) (dataType : DataType)
    (columnStructure : ColumnStructure) (language : String) : ParseRowsResult :=
  parseRowsAux jp dataType columnStructure language 0 rows

/-- The final values record produced by the priority chain (`values`).
`name` and `content` are JavaScript values because the `old_json`
fallback can in principle surface a non-string JSON value. -/
structure FinalValues where
  id : String
  name : JVal
  content : JVal
deriving Repr

/-- `SheetsParser.getFinalValues`: the fixed priority chain
`manual || llm || old || old_json_values?.field || ''` per field. -/
def getFinalValues (row : RowModel) (dataType : DataType) : FinalValues :=
  { id := row.id
    name := jsOr (.str row.manual_name) (jsOr (.str row.llm_name)
      (jsOr (.str row.old_name) (jsOr (optGet row.old_json_values "name") (.str ""))))
    content := jsOr (.str row.manual_content) (jsOr (.str row.llm_content)
      (jsOr (.str row.old_content)
        (jsOr (optGet row.old_json_values (MultiLanguageJSONHandler.contentKey dataType))
          (.str "")))) }

end SheetsParser

namespace JSONBuilder

open MultiLanguageJSONHandler

/-- `JSONBuilder.getFinalValuesWithOld`: same chain as
`SheetsParser.getFinalValues`, with `row.id || ''` for the id. -/
def getFinalValuesWithOld (row : RowModel) (dataType : DataType) : SheetsParser.FinalValues :=
  { id := if row.id ≠ "" then row.id else ""
    name := jsOr (.str row.manual_name) (jsOr (.str row.llm_name)
      (jsOr (.str row.old_name) (jsOr (optGet row.old_json_values "name") (.str ""))))
    content := jsOr (.str row.manual_content) (jsOr (.str row.llm_content)
      (jsOr (.str row.old_content)
        (jsOr (optGet row.old_json_values (contentKey dataType)) (.str "")))) }

/-- `JSONBuilder.buildUpdatedJSON`: merge the language payload built
from the final values into the row's parsed `old_json`. -/
def buildUpdatedJSON (row : RowModel) (dataType : DataType) (language : String) : JVal :=
  let baseJSON := row.old_json_parsed
  let finalValues := getFinalValuesWithOld row dataType
  let languageData : List (String × JVal) :=
    [("id", .str finalValues.id), ("name", finalValues.name),
     (contentKey dataType, finalValues.content)]
  merge baseJSON language languageData

/-- `JSONBuilder.buildJSON` (object part; the serialized string is not
modelled, no claim concerns it): `language || row.language` selects the
merge target. -/
def buildJSON (row : RowModel) (dataType : DataType) (language : String) : JVal :=
  buildUpdatedJSON row dataType (if language ≠ "" then language else row.language)

/-- One entry of the `buildBatchJSON` result list (`json` string field
omitted, as for `buildJSON`). -/
structure BatchResult where
  rowIndex : JVal
  id : String
  object : JVal
  success : Bool
deriving Repr

/-- `row.rowIndex !== undefined`. -/
def isUndefined : JVal → Bool
  | .undefined => true
  | _ => false

/-- The loop body of `JSONBuilder.buildBatchJSON`, indexed from the
position of the first remaining row. -/
def buildBatchJSONAux (dataType : DataType) (language : String) :
    Nat → List RowModel → List BatchResult
  | _, [] => []
  | index, row :: rest =>
      { rowIndex := if ¬ isUndefined row.rowIndex then row.rowIndex else .num index
        id := row.id
        object := buildJSON row dataType language
        success := true } :: buildBatchJSONAux dataType language (index + 1) rest

/-- `JSONBuilder.buildBatchJSON`: per-row JSON results; `rowIndex` is
the row's own `rowIndex` unless it is `undefined`, in which case the
array position is used. (Nothing in the modelled pipeline throws, so
the `catch` branch producing `success:false` entries is unreachable.) -/
def buildBatchJSON (rows : List RowModel) (dataType : DataType) (language : String) :
    List BatchResult :=
  buildBatchJSONAux dataType language 0 rows

end JSONBuilder

/-! ## Specification-side definitions

These definitions follow the wording of the specification (not the
source); the theorems below compare the source embedding against them. -/

/-- Spec side: a candidate value counts as absent when it is the empty
string, `null` or `undefined` (spec: "empty string, null, and undefined
all count as absent"). -/
def strOrAbsent (v : JVal) : Prop :=
  v = .undefined ∨ v = .null ∨ ∃ s, v = .str s

/-- Spec side: the first candidate that is a non-empty string, in order;
the empty string when every candidate is empty or absent. -/
def firstNonEmpty : List JVal → String
  | [] => ""
  | c :: rest =>
      match c with
      | .str s => if s = "" then firstNonEmpty rest else s
      | _ => firstNonEmpty rest

/-- Spec side: "`existing[language]` (or `\x7b\x7d` when absent)" — the
fields of the language entry of a multi-language object. -/
def langEntryFields (fs : List (String × JVal)) (language : String) : List (String × JVal) :=
  match mapGet fs language with
  | some (.obj g) => g
  | _ => []

/-- Spec side: the shallow union of `a` and `b` with `b`'s keys winning,
read pointwise. -/
def lookupUnion (a b : List (String × JVal)) (k : String) : Option JVal :=
  match mapGet b k with
  | some v => some v
  | none => mapGet a k

/-- The parse-cache invariant: every cached binding maps a non-empty,
non-whitespace input text to the plain object `JSON.parse` yields on it.
It holds for the empty cache and is preserved by every `parseCached`
call. -/
def cacheOK (jp : String → Option JVal) (cache : List (String × JVal)) : Prop :=
  ∀ p ∈ cache, p.1 ≠ "" ∧ jsTrim p.1 ≠ "" ∧ jp p.1 = some p.2
    ∧ MultiLanguageJSONHandler.isPlainObject p.2 = true

/-- A run of consecutive `parse` calls threading the cache, yielding the
list of results and the final cache. -/
def runParses (enabled : Bool) (maxSize : Nat) (jp : String → Option JVal)
    (cache : List (String × JVal)) : List (Option String) → List JVal × List (String × JVal)
  | [] => ([], cache)
  | input :: rest =>
      let r := MultiLanguageJSONHandler.parseCached enabled maxSize jp cache input
      let rr := runParses enabled maxSize jp r.2 rest
      (r.1 :: rr.1, rr.2)

/-! ## Concrete fixtures for witnesses and counterexamples -/

/-- The JSON text `\x7b"en":\x7b"name":"x"\x7d\x7d` from the spec's P3. -/
def objText : String := "\x7b\"en\":\x7b\"name\":\"x\"\x7d\x7d"

/-- The value `JSON.parse` yields on `objText`. -/
def objVal : JVal := .obj [("en", .obj [("name", .str "x")])]

/-- A prior multi-language object with distinct `en` and `ja` names. -/
def oldJsonDoc : JVal := .obj [("en", .obj [("name", .str "E")]), ("ja", .obj [("name", .str "J")])]

/-- A concrete `JSON.parse` oracle consistent with real JSON parsing on
the inputs the witnesses use (`none` models a parse error). -/
def jp0 : String → Option JVal := fun s =>
  if s = "not json" then none
  else if s = "[1,2,3]" then some (.arr [.num 1, .num 2, .num 3])
  else if s = "\"a string\"" then some (.str "a string")
  else if s = objText then some objVal
  else if s = "OJ" then some oldJsonDoc
  else none

/-- A raw row whose recorded language column (`ja`) differs from the
run's target language (`en`) and whose `old_json` cell is `OJ`. -/
def rowC3 : List String := ["d1", "nm", "hist", "ja", "", "", "OJ"]

/-- A raw row whose id cell contains HTML-special characters. -/
def rowC8 : List String := ["<b>", "n"]

/-- A decoded doctor row with a manual name, LLM values and old values. -/
def rowW : RowModel :=
  SheetsParser.parseRow jp0
    ["d1", "KRN", "KRH", "en", "oldN", "oldH", "", "manN", "", "llmN", "llmH", ""]
    .doctor (SHEET_COLUMNS .doctor) "en"

/-- A decoded doctor row with an LLM translation and old values equal to
the Korean source fields. -/
def rowC4 : RowModel :=
  SheetsParser.parseRow jp0
    ["d1", "N", "H", "en", "N", "H", "", "", "", "tn", "th", ""]
    .doctor (SHEET_COLUMNS .doctor) "en"

/-- An existing multi-language object holding only a `ja` entry. -/
def fsW : List (String × JVal) := [("ja", .obj [("name", .str "A")])]

/-- A fresh `en` payload. -/
def payloadW : List (String × JVal) := [("name", .str "p")]

/-- A concrete two-entry parse cache consistent with `jp0`. -/
def cacheW : List (String × JVal) := [("OJ", oldJsonDoc), (objText, objVal)]

/-! ## Theorems -/

/-- `a || b` on a string left operand selects `a` exactly when `a` is
non-empty. -/
theorem jsOr_str (a : String) (x : JVal) :
    jsOr (.str a) x = if a = "" then x else .str a := by
  by_cases h : a = "" <;> simp [jsOr, truthy, h]

/-- C5: `parse` never raises and always returns an object: `null`,
empty or whitespace-only input yields `\x7b\x7d`; text that does not
parse, or whose top-level value is not a non-null, non-array object,
yields `\x7b\x7d`; text parsing to a plain object yields that object
unchanged. -/
theorem c5_parse_robustness (jp : String → Option JVal) :
    MultiLanguageJSONHandler.parse jp none = .obj []
    ∧ (∀ s : String, jsTrim s = "" → MultiLanguageJSONHandler.parse jp (some s) = .obj [])
    ∧ (∀ s : String, jp s = none → MultiLanguageJSONHandler.parse jp (some s) = .obj [])
    ∧ (∀ s : String, ∀ v : JVal, jp s = some v →
        MultiLanguageJSONHandler.isPlainObject v = false →
        MultiLanguageJSONHandler.parse jp (some s) = .obj [])
    ∧ (∀ s : String, ∀ fields : List (String × JVal), jsTrim s ≠ "" → jp s = some (.obj fields) →
        MultiLanguageJSONHandler.parse jp (some s) = .obj fields) := by
  refine ⟨rfl, ?_, ?_, ?_, ?_⟩
  · intro s hs
    simp [MultiLanguageJSONHandler.parse, hs]
  · intro s hjp
    by_cases h : s = "" ∨ jsTrim s = ""
    · simp [MultiLanguageJSONHandler.parse, h]
    · simp [MultiLanguageJSONHandler.parse, h, hjp]
  · intro s v hjp hv
    by_cases h : s = "" ∨ jsTrim s = ""
    · simp [MultiLanguageJSONHandler.parse, h]
    · simp [MultiLanguageJSONHandler.parse, h, hjp, hv]
  · intro s fields hs hjp
    have h : ¬ (s = "" ∨ jsTrim s = "") := by
      rintro (h1 | h1)
      · exact hs (by subst h1; rfl)
      · exact hs h1
    simp [MultiLanguageJSONHandler.parse, h, hjp, MultiLanguageJSONHandler.isPlainObject]

/-- Witness for C5: the concrete inputs of the spec's P3 under a
concrete `JSON.parse` oracle. -/
theorem c5_parse_robustness_witness :
    jsTrim "" = ""
    ∧ MultiLanguageJSONHandler.parse jp0 none = .obj []
    ∧ MultiLanguageJSONHandler.parse jp0 (some "") = .obj []
    ∧ MultiLanguageJSONHandler.parse jp0 (some "not json") = .obj []
    ∧ MultiLanguageJSONHandler.parse jp0 (some "[1,2,3]") = .obj []
    ∧ MultiLanguageJSONHandler.parse jp0 (some "\"a string\"") = .obj []
    ∧ MultiLanguageJSONHandler.parse jp0 (some objText) = objVal :=
  ⟨by decide, (c5_parse_robustness jp0).1,
   (c5_parse_robustness jp0).2.1 "" (by decide),
   (c5_parse_robustness jp0).2.2.1 "not json" rfl,
   (c5_parse_robustness jp0).2.2.2.1 "[1,2,3]" (.arr [.num 1, .num 2, .num 3]) rfl rfl,
   (c5_parse_robustness jp0).2.2.2.1 "\"a string\"" (.str "a string") rfl rfl,
   (c5_parse_robustness jp0).2.2.2.2 objText [("en", .obj [("name", .str "x")])] (by decide) rfl⟩

/-- C6: `merge` with a language code outside the configured set is a
no-op on content — it returns the base object unchanged, adding no key
for that language. (The embedding is pure, so the original `existing`
object is trivially unmutated; the source likewise only writes to a
spread copy.) -/
theorem c6_merge_invalid_language (fs : List (String × JVal)) (language : String)
    (newData : List (String × JVal))
    (h : MultiLanguageJSONHandler.isValidLanguage language = false) :
    MultiLanguageJSONHandler.merge (.obj fs) language newData = .obj fs
    ∧ getField (MultiLanguageJSONHandler.merge (.obj fs) language newData) language
        = getField (.obj fs) language := by
  have hm : MultiLanguageJSONHandler.merge (.obj fs) language newData = .obj fs := by
    simp [MultiLanguageJSONHandler.merge, truthy, typeofIsObject, spreadable, h]
  exact ⟨hm, by rw [hm]⟩

/-- Witness for C6: merging an `fr` payload leaves the object unchanged. -/
theorem c6_merge_invalid_language_witness :
    MultiLanguageJSONHandler.isValidLanguage "fr" = false
    ∧ MultiLanguageJSONHandler.merge (.obj fsW) "fr" payloadW = .obj fsW :=
  ⟨by decide, (c6_merge_invalid_language fsW "fr" payloadW (by decide)).1⟩

/-- C4: `needsTranslation` equals
`NOT hasLLMTranslation OR (hasOldValues AND hasContentChanged)`; hence a
row without a machine translation always needs translation, a row with
one whose Korean source fields equal the old fields does not, and
changing `kr_name` away from `old_name` flips it back on. -/
theorem c4_needs_translation (row : RowModel) (dataType : DataType) :
    SheetsParser.needsTranslation row dataType
      = (! SheetsParser.hasLLMTranslation row dataType
          || (SheetsParser.hasOldValues row dataType
              && SheetsParser.hasContentChanged row dataType))
    ∧ (SheetsParser.hasLLMTranslation row dataType = false →
        SheetsParser.needsTranslation row dataType = true)
    ∧ (SheetsParser.hasLLMTranslation row dataType = true →
        row.kr_name = row.old_name → row.kr_content = row.old_content →
        SheetsParser.needsTranslation row dataType = false)
    ∧ (∀ x : String, SheetsParser.hasOldValues row dataType = true → x ≠ row.old_name →
        SheetsParser.needsTranslation { row with kr_name := x } dataType = true) := by
  refine ⟨rfl, ?_, ?_, ?_⟩
  · intro h
    simp [SheetsParser.needsTranslation, h]
  · intro h h1 h2
    simp [SheetsParser.needsTranslation, h, SheetsParser.hasContentChanged, h1, h2]
  · intro x hOld hx
    simp only [SheetsParser.hasOldValues] at hOld
    simp [SheetsParser.needsTranslation, SheetsParser.hasOldValues,
      SheetsParser.hasContentChanged, hOld, hx]

/-- Witness for C4: a decoded row with an LLM translation and old values
equal to the Korean source does not need translation; editing `kr_name`
flips it back on; clearing the LLM fields always turns it on. -/
theorem c4_needs_translation_witness :
    SheetsParser.hasLLMTranslation rowC4 .doctor = true
    ∧ rowC4.kr_name = rowC4.old_name
    ∧ rowC4.kr_content = rowC4.old_content
    ∧ SheetsParser.needsTranslation rowC4 .doctor = false
    ∧ SheetsParser.hasOldValues rowC4 .doctor = true
    ∧ ("X" : String) ≠ rowC4.old_name
    ∧ SheetsParser.needsTranslation { rowC4 with kr_name := "X" } .doctor = true
    ∧ SheetsParser.needsTranslation { rowC4 with llm_name := "", llm_content := "" } .doctor
        = true :=
  ⟨by decide, by decide, by decide,
   (c4_needs_translation rowC4 .doctor).2.2.1 (by decide) (by decide) (by decide),
   by decide, by decide,
   (c4_needs_translation rowC4 .doctor).2.2.2 "X" (by decide) (by decide),
   (c4_needs_translation { rowC4 with llm_name := "", llm_content := "" } .doctor).2.1
     (by decide)⟩

/-- The four-candidate `||` chain of the final-value functions computes
the first non-empty candidate (in the spec's sense), provided the
`old_json` fallback candidate is a string or absent. -/
theorem chain_eq_firstNonEmpty (a b c : String) (d : JVal) (hd : strOrAbsent d) :
    jsOr (.str a) (jsOr (.str b) (jsOr (.str c) (jsOr d (.str ""))))
      = .str (firstNonEmpty [.str a, .str b, .str c, d]) := by
  rcases hd with h | h | ⟨s, h⟩ <;> subst h <;>
    by_cases ha : a = "" <;> by_cases hb : b = "" <;> by_cases hc : c = "" <;>
      first
        | (by_cases hs : s = "" <;> simp [jsOr, truthy, firstNonEmpty, ha, hb, hc, hs])
        | simp [jsOr, truthy, firstNonEmpty, ha, hb, hc]

/-- C1: for every decoded row and both translatable fields, the final
value computed by `SheetsParser.getFinalValues` (and equally by
`JSONBuilder.getFinalValuesWithOld`) is the first non-empty candidate in
the fixed order manual, llm, old, `old_json` value — and `""` when all
four are empty or absent. -/
theorem c1_priority_chain (row : RowModel) (dataType : DataType)
    (hn : strOrAbsent (optGet row.old_json_values "name"))
    (hc : strOrAbsent
        (optGet row.old_json_values (MultiLanguageJSONHandler.contentKey dataType))) :
    (SheetsParser.getFinalValues row dataType).name
        = .str (firstNonEmpty [.str row.manual_name, .str row.llm_name, .str row.old_name,
            optGet row.old_json_values "name"])
    ∧ (SheetsParser.getFinalValues row dataType).content
        = .str (firstNonEmpty [.str row.manual_content, .str row.llm_content,
            .str row.old_content,
            optGet row.old_json_values (MultiLanguageJSONHandler.contentKey dataType)])
    ∧ JSONBuilder.getFinalValuesWithOld row dataType = SheetsParser.getFinalValues row dataType := by
  refine ⟨?_, ?_, ?_⟩
  · exact chain_eq_firstNonEmpty _ _ _ _ hn
  · exact chain_eq_firstNonEmpty _ _ _ _ hc
  · unfold JSONBuilder.getFinalValuesWithOld SheetsParser.getFinalValues
    by_cases h : row.id = "" <;> simp [h]

/-- Witness for C1: on a decoded row with all sources present the manual
name wins; with the manual content empty the llm content wins. -/
theorem c1_priority_chain_witness :
    strOrAbsent (optGet rowW.old_json_values "name")
    ∧ strOrAbsent (optGet rowW.old_json_values (MultiLanguageJSONHandler.contentKey .doctor))
    ∧ (SheetsParser.getFinalValues rowW .doctor).name = .str "manN"
    ∧ (SheetsParser.getFinalValues rowW .doctor).content = .str "llmH"
    ∧ JSONBuilder.getFinalValuesWithOld rowW .doctor = SheetsParser.getFinalValues rowW .doctor :=
  ⟨Or.inl rfl, Or.inl rfl,
   (c1_priority_chain rowW .doctor (Or.inl rfl) (Or.inl rfl)).1,
   (c1_priority_chain rowW .doctor (Or.inl rfl) (Or.inl rfl)).2.1,
   (c1_priority_chain rowW .doctor (Or.inl rfl) (Or.inl rfl)).2.2⟩

/-- C8 (amended): every name/content-bearing field (`kr_`, `old_`,
`manual_`, `llm_`) is HTML-escaped by `sanitizeInput` before being
stored on the decoded row, but the `id` field is stored exactly as read
from the sheet, unescaped, and is carried raw into the per-language JSON
payload by `getFinalValuesWithOld`. -/
theorem c8_sanitization (jp : String → Option JVal) (row : List String) (dataType : DataType)
    (cs : ColumnStructure) (expectedLanguage : String) :
    (SheetsParser.parseRow jp row dataType cs expectedLanguage).kr_name
        = sanitizeInput (SheetsParser.getValue row cs.kr_name)
    ∧ (SheetsParser.parseRow jp row dataType cs expectedLanguage).kr_content
        = sanitizeInput (SheetsParser.getValue row cs.kr_content)
    ∧ (SheetsParser.parseRow jp row dataType cs expectedLanguage).old_name
        = sanitizeInput (SheetsParser.getValue row cs.old_name)
    ∧ (SheetsParser.parseRow jp row dataType cs expectedLanguage).old_content
        = sanitizeInput (SheetsParser.getValue row cs.old_content)
    ∧ (SheetsParser.parseRow jp row dataType cs expectedLanguage).manual_name
        = sanitizeInput (SheetsParser.getValue row cs.manual_name)
    ∧ (SheetsParser.parseRow jp row dataType cs expectedLanguage).manual_content
        = sanitizeInput (SheetsParser.getValue row cs.manual_content)
    ∧ (SheetsParser.parseRow jp row dataType cs expectedLanguage).llm_name
        = sanitizeInput (SheetsParser.getValue row cs.llm_name)
    ∧ (SheetsParser.parseRow jp row dataType cs expectedLanguage).llm_content
        = sanitizeInput (SheetsParser.getValue row cs.llm_content)
    ∧ (SheetsParser.parseRow jp row dataType cs expectedLanguage).id
        = SheetsParser.getValue row cs.id
    ∧ (JSONBuilder.getFinalValuesWithOld
          (SheetsParser.parseRow jp row dataType cs expectedLanguage) dataType).id
        = (SheetsParser.parseRow jp row dataType cs expectedLanguage).id := by
  refine ⟨rfl, rfl, rfl, rfl, rfl, rfl, rfl, rfl, rfl, ?_⟩
  unfold JSONBuilder.getFinalValuesWithOld
  by_cases h : (SheetsParser.parseRow jp row dataType cs expectedLanguage).id = "" <;> simp [h]

/-- Counterexample for C8: the claim says the stored `id` is
HTML-escaped; on a row whose id cell is `<b>` the decoded row stores the
unescaped text `<b>`, which differs from its escaping. -/
theorem c8_counterexample :
    (SheetsParser.parseRow jp0 rowC8 .doctor (SHEET_COLUMNS .doctor) "en").id = "<b>"
    ∧ sanitizeInput "<b>" = "&lt;b&gt;"
    ∧ ("<b>" : String) ≠ "&lt;b&gt;" :=
  ⟨rfl, rfl, by decide⟩

/-- `MultiLanguageJSONHandler.parse` always returns an object, hence a
truthy value. -/
theorem parse_truthy (jp : String → Option JVal) (x : Option String) :
    truthy (MultiLanguageJSONHandler.parse jp x) = true := by
  unfold MultiLanguageJSONHandler.parse
  rcases x with _ | s
  · rfl
  · by_cases h : s = "" ∨ jsTrim s = ""
    · simp [h, truthy]
    · simp only [h, if_false, ite_false]
      rcases hjp : jp s with _ | v
      · simp [truthy]
      · cases v <;> simp [MultiLanguageJSONHandler.isPlainObject, truthy]

/-- C3 (amended): `old_json_values` is extracted from the parsed
`old_json` using the row's effective language — the recorded language
column when non-empty, else the run's expected language — not the
expected language unconditionally. -/
theorem c3_extraction_language (jp : String → Option JVal) (row : List String)
    (dataType : DataType) (cs : ColumnStructure) (expectedLanguage : String)
    (hL : expectedLanguage ≠ "") :
    (SheetsParser.parseRow jp row dataType cs expectedLanguage).old_json_values
      = MultiLanguageJSONHandler.extractOldJSONValues
          (SheetsParser.parseRow jp row dataType cs expectedLanguage).old_json_parsed
          (SheetsParser.parseRow jp row dataType cs expectedLanguage).language
          dataType := by
  unfold SheetsParser.parseRow
  by_cases h : SheetsParser.getValue row cs.language = "" <;>
    simp [h, hL, parse_truthy]

/-- Witness for the amended C3. -/
theorem c3_extraction_language_witness :
    ("en" : String) ≠ ""
    ∧ (SheetsParser.parseRow jp0 rowC3 .doctor (SHEET_COLUMNS .doctor) "en").old_json_values
        = MultiLanguageJSONHandler.extractOldJSONValues
            (SheetsParser.parseRow jp0 rowC3 .doctor (SHEET_COLUMNS .doctor) "en").old_json_parsed
            (SheetsParser.parseRow jp0 rowC3 .doctor (SHEET_COLUMNS .doctor) "en").language
            .doctor :=
  ⟨by decide, c3_extraction_language jp0 rowC3 .doctor (SHEET_COLUMNS .doctor) "en" (by decide)⟩

/-- Counterexample for C3: on a run targeting `en`, a row whose recorded
language column is `ja` has its `old_json_values` extracted under `ja`
(name `J`), not under the run language `en` (name `E`), so the claim as
stated is false. -/
theorem c3_counterexample :
    ¬ ((SheetsParser.parseRow jp0 rowC3 .doctor (SHEET_COLUMNS .doctor) "en").old_json_values
        = MultiLanguageJSONHandler.extractOldJSONValues
            (SheetsParser.parseRow jp0 rowC3 .doctor (SHEET_COLUMNS .doctor) "en").old_json_parsed
            "en" .doctor) := by
  intro h
  have h2 : optGet ((SheetsParser.parseRow jp0 rowC3 .doctor
        (SHEET_COLUMNS .doctor) "en").old_json_values) "name"
      = optGet (MultiLanguageJSONHandler.extractOldJSONValues
          (SheetsParser.parseRow jp0 rowC3 .doctor (SHEET_COLUMNS .doctor) "en").old_json_parsed
          "en" .doctor) "name" := by rw [h]
  have e1 : optGet ((SheetsParser.parseRow jp0 rowC3 .doctor
        (SHEET_COLUMNS .doctor) "en").old_json_values) "name" = JVal.str "J" := rfl
  have e2 : optGet (MultiLanguageJSONHandler.extractOldJSONValues
        (SheetsParser.parseRow jp0 rowC3 .doctor (SHEET_COLUMNS .doctor) "en").old_json_parsed
        "en" .doctor) "name" = JVal.str "E" := rfl
  rw [e1, e2] at h2
  injection h2 with h3
  exact absurd h3 (by decide)

/-- Escaping a character never yields the empty string. -/
theorem escapeChar_ne_empty (c : Char) : escapeChar c ≠ "" := by
  unfold escapeChar
  split_ifs <;> first
    | decide
    | (intro h
       have h2 := congrArg String.data h
       simp [String.singleton] at h2)

/-- Sanitization maps the empty string to itself and never collapses a
non-empty string to empty, so "empty after sanitization" coincides with
"empty before sanitization". -/
theorem sanitizeInput_eq_empty_iff (s : String) : sanitizeInput s = "" ↔ s = "" := by
  obtain ⟨cs⟩ := s
  cases cs with
  | nil => simp [sanitizeInput, escapeList]
  | cons c rest =>
      constructor
      · intro h
        exfalso
        have h2 := congrArg String.data h
        simp only [sanitizeInput, escapeList, String.data_append] at h2
        have h3 : (escapeChar c).data = [] := by
          cases h4 : (escapeChar c).data with
          | nil => rfl
          | cons x xs => rw [h4] at h2; simp at h2
        exact escapeChar_ne_empty c (by
          cases hec : escapeChar c
          cases hec ▸ h3
          rfl)
      · intro h
        have h2 := congrArg String.data h
        simp at h2

/-- `parseRowsAux` characterized: decoded rows are the non-rejected rows
in order, and the error list enumerates the rejected rows with row
numbers counted from `start + 2`. -/
theorem parseRowsAux_spec (jp : String → Option JVal) (dataType : DataType)
    (cs : ColumnStructure) (language : String) (start : Nat) (rows : List (List String)) :
    SheetsParser.parseRowsAux jp dataType cs language start rows
      = ⟨rows.filterMap (fun row =>
            let parsedRow := SheetsParser.parseRow jp row dataType cs language
            if parsedRow.id = "" ∨ parsedRow.kr_name = "" then none else some parsedRow),
          (List.enumFrom start rows).filterMap (fun p =>
            let parsedRow := SheetsParser.parseRow jp p.2 dataType cs language
            if parsedRow.id = "" ∨ parsedRow.kr_name = "" then
              some ⟨p.1 + 2, SheetsParser.missingFieldsMessage, p.2⟩
            else none)⟩ := by
  induction rows generalizing start with
  | nil => rfl
  | cons r rest ih =>
      by_cases h : (SheetsParser.parseRow jp r dataType cs language).id = ""
          ∨ (SheetsParser.parseRow jp r dataType cs language).kr_name = "" <;>
        simp [SheetsParser.parseRowsAux, List.enumFrom, ih (start + 1), h]

/-- C7: batch decode excludes exactly the raw rows whose decoded `id` or
`kr_name` is empty, records for each an error with the 1-based sheet row
number (0-based data index plus 2, respecting the header row), and
decodes all other rows in order — each row's outcome depends only on
that row, so no valid row is dropped because another row failed. -/
theorem c7_row_rejection (jp : String → Option JVal) (rows : List (List String))
    (dataType : DataType) (cs : ColumnStructure) (language : String) :
    (SheetsParser.parseRows jp rows dataType cs language).data
      = rows.filterMap (fun row =>
          let parsedRow := SheetsParser.parseRow jp row dataType cs language
          if parsedRow.id = "" ∨ parsedRow.kr_name = "" then none else some parsedRow)
    ∧ (SheetsParser.parseRows jp rows dataType cs language).errors
      = rows.enum.filterMap (fun p =>
          let parsedRow := SheetsParser.parseRow jp p.2 dataType cs language
          if parsedRow.id = "" ∨ parsedRow.kr_name = "" then
            some ⟨p.1 + 2, SheetsParser.missingFieldsMessage, p.2⟩
          else none)
    ∧ (∀ s : String, sanitizeInput s = "" ↔ s = "") := by
  have h := parseRowsAux_spec jp dataType cs language 0 rows
  exact ⟨congrArg SheetsParser.ParseRowsResult.data h,
    congrArg SheetsParser.ParseRowsResult.errors h,
    sanitizeInput_eq_empty_iff⟩

/-- `buildBatchJSONAux` preserves the row count. -/
theorem buildBatchJSONAux_length (dataType : DataType) (language : String) (start : Nat)
    (rows : List RowModel) :
    (JSONBuilder.buildBatchJSONAux dataType language start rows).length = rows.length := by
  induction rows generalizing start with
  | nil => rfl
  | cons r rest ih => simp [JSONBuilder.buildBatchJSONAux, ih (start + 1)]

/-- Element-wise characterization of `buildBatchJSONAux`'s `rowIndex`. -/
theorem buildBatchJSONAux_rowIndex (dataType : DataType) (language : String) (start : Nat)
    (rows : List RowModel) (i : Nat) (h : i < rows.length)
    (h2 : i < (JSONBuilder.buildBatchJSONAux dataType language start rows).length) :
    ((JSONBuilder.buildBatchJSONAux dataType language start rows).get ⟨i, h2⟩).rowIndex
      = if JSONBuilder.isUndefined ((rows.get ⟨i, h⟩).rowIndex) then JVal.num (start + i)
        else (rows.get ⟨i, h⟩).rowIndex := by
  induction rows generalizing start i with
  | nil => exact absurd h (Nat.not_lt_zero i)
  | cons r rest ih =>
      cases i with
      | zero =>
          by_cases hu : JSONBuilder.isUndefined r.rowIndex <;>
            simp [JSONBuilder.buildBatchJSONAux, hu]
      | succ n =>
          have hn : n < rest.length := Nat.lt_of_succ_lt_succ h
          have hn2 : n < (JSONBuilder.buildBatchJSONAux dataType language (start + 1) rest).length := by
            rw [buildBatchJSONAux_length]; exact hn
          have h3 := ih (start + 1) n hn hn2
          have hcast : ((start + 1 : Nat) : Int) + (n : Int)
              = (start : Int) + ((n + 1 : Nat) : Int) := by push_cast; ring
          rw [hcast] at h3
          simpa [JSONBuilder.buildBatchJSONAux] using h3

/-- C10: `parseRow` stores in `rowIndex` the raw content of the row's
first cell (the id column), not the row's ordinal position, and `null`
for a zero-length row; `buildBatchJSON` reports that same value as the
per-row `rowIndex` whenever it is not `undefined`, falling back to the
array position only when it is. -/
theorem c10_row_index (jp : String → Option JVal) (dataType : DataType)
    (expectedLanguage : String) :
    (∀ row : List String, row ≠ [] →
        (SheetsParser.parseRow jp row dataType (SHEET_COLUMNS dataType) expectedLanguage).rowIndex
          = .str (SheetsParser.getValue row ((SHEET_COLUMNS dataType).id)))
    ∧ (SheetsParser.parseRow jp [] dataType (SHEET_COLUMNS dataType) expectedLanguage).rowIndex
        = .null
    ∧ (∀ (rows : List RowModel) (language : String) (i : Nat)
          (h : i < rows.length)
          (h2 : i < (JSONBuilder.buildBatchJSON rows dataType language).length),
        ((JSONBuilder.buildBatchJSON rows dataType language).get ⟨i, h2⟩).rowIndex
          = if JSONBuilder.isUndefined ((rows.get ⟨i, h⟩).rowIndex) then JVal.num i
            else (rows.get ⟨i, h⟩).rowIndex) := by
  refine ⟨?_, rfl, ?_⟩
  · intro row hrow
    cases row with
    | nil => exact absurd rfl hrow
    | cons cell rest => rfl
  · intro rows language i h h2
    have := buildBatchJSONAux_rowIndex dataType language 0 rows i h h2
    simpa [JSONBuilder.buildBatchJSON] using this

/-- Witness for C10: a decoded row whose first cell is `d1` carries
`rowIndex = "d1"` through `buildBatchJSON`. -/
theorem c10_row_index_witness :
    rowC3 ≠ []
    ∧ (SheetsParser.parseRow jp0 rowC3 .doctor (SHEET_COLUMNS .doctor) "en").rowIndex
        = .str "d1"
    ∧ ((JSONBuilder.buildBatchJSON
          [SheetsParser.parseRow jp0 rowC3 .doctor (SHEET_COLUMNS .doctor) "en"]
          .doctor "en").get ⟨0, by decide⟩).rowIndex
        = .str "d1" :=
  ⟨by decide,
   (c10_row_index jp0 .doctor "en").1 rowC3 (by decide),
   (c10_row_index jp0 .doctor "en").2.2
     [SheetsParser.parseRow jp0 rowC3 .doctor (SHEET_COLUMNS .doctor) "en"] "en" 0
     (by decide) (by decide)⟩

/-- `mapSet` stores the new binding under its key. -/
theorem mapGet_mapSet_self (fs : List (String × JVal)) (k : String) (v : JVal) :
    mapGet (mapSet fs k v) k = some v := by
  induction fs with
  | nil => simp [mapSet, mapGet]
  | cons p rest ih =>
      obtain ⟨k1, v1⟩ := p
      by_cases h : k1 = k <;> simp [mapSet, mapGet, h, ih]

/-- `mapSet` leaves every other key untouched. -/
theorem mapGet_mapSet_ne (fs : List (String × JVal)) (k : String) (v : JVal) (key : String)
    (h : key ≠ k) : mapGet (mapSet fs k v) key = mapGet fs key := by
  induction fs with
  | nil => simp [mapSet, mapGet, Ne.symm h]
  | cons p rest ih =>
      obtain ⟨k1, v1⟩ := p
      by_cases h1 : k1 = k
      · subst h1
        simp [mapSet, mapGet, Ne.symm h]
      · by_cases h2 : k1 = key <;> simp [mapSet, mapGet, h1, h2, h, ih]

/-- A key absent from every binding looks up to `none`. -/
theorem mapGet_eq_none_of_not_mem (fs : List (String × JVal)) (k : String)
    (h : k ∉ fs.map Prod.fst) : mapGet fs k = none := by
  induction fs with
  | nil => rfl
  | cons p rest ih =>
      obtain ⟨k1, v1⟩ := p
      simp only [List.map_cons, List.mem_cons] at h
      push_neg at h
      simp [mapGet, Ne.symm h.1, ih h.2]

/-- The spread `{...a, ...b}` looks up pointwise as the union of `a` and
`b` with `b` winning, for `b` with distinct keys. -/
theorem mapGet_shallowMerge (a b : List (String × JVal)) (hb : (b.map Prod.fst).Nodup)
    (k : String) : mapGet (shallowMerge a b) k = lookupUnion a b k := by
  induction b generalizing a with
  | nil => simp [shallowMerge, lookupUnion, mapGet]
  | cons p rest ih =>
      obtain ⟨k0, v0⟩ := p
      simp only [List.map_cons, List.nodup_cons] at hb
      have hstep : shallowMerge a ((k0, v0) :: rest) = shallowMerge (mapSet a k0 v0) rest := rfl
      rw [hstep, ih (mapSet a k0 v0) hb.2]
      unfold lookupUnion
      by_cases hk : k0 = k
      · subst hk
        have hnone : mapGet rest k0 = none :=
          mapGet_eq_none_of_not_mem rest k0 hb.1
        simp [mapGet, hnone, mapGet_mapSet_self]
      · simp only [mapGet, hk, if_false]
        cases hrest : mapGet rest k with
        | none => simp [mapGet_mapSet_ne a k0 v0 k (Ne.symm hk)]
        | some w => rfl

/-- C2: for a multi-language object (its entry at the target language,
if any, is itself an object) and a valid language code, `merge` returns
an object whose entry at that language is the shallow union of the
existing entry (or `\x7b\x7d` when absent) and the payload with payload
keys winning, and whose every other key maps to the same value as in
the existing object. (The embedding is pure; the source writes only to
a spread copy, so `existing` is not mutated.) -/
theorem c2_merge (fs : List (String × JVal)) (language : String)
    (payload : List (String × JVal))
    (hLang : MultiLanguageJSONHandler.isValidLanguage language = true)
    (hNodup : (payload.map Prod.fst).Nodup)
    (hObj : ∀ v, mapGet fs language = some v → ∃ g, v = JVal.obj g) :
    ∃ merged : List (String × JVal),
      MultiLanguageJSONHandler.merge (.obj fs) language payload = .obj merged
      ∧ (∀ k, k ≠ language → mapGet merged k = mapGet fs k)
      ∧ ∃ inner : List (String × JVal),
          mapGet merged language = some (.obj inner)
          ∧ ∀ k, mapGet inner k = lookupUnion (langEntryFields fs language) payload k := by
  refine ⟨mapSet fs language (.obj (shallowMerge (langEntryFields fs language) payload)),
    ?_, ?_, ?_⟩
  · unfold MultiLanguageJSONHandler.merge
    cases hv : mapGet fs language with
    | none => simp [truthy, typeofIsObject, spreadable, hLang, hv, langEntryFields]
    | some v =>
        obtain ⟨g, rfl⟩ := hObj v hv
        simp [truthy, typeofIsObject, spreadable, hLang, hv, langEntryFields]
  · intro k hk
    exact mapGet_mapSet_ne fs language _ k hk
  · exact ⟨shallowMerge (langEntryFields fs language) payload,
      mapGet_mapSet_self fs language _,
      fun k => mapGet_shallowMerge (langEntryFields fs language) payload hNodup k⟩

/-- Witness for C2: merging an `en` payload into an object holding only
a `ja` entry keeps `ja` unchanged and adds `en` with the payload
(the explicit result is the spec's P2 instance). -/
theorem c2_merge_witness :
    MultiLanguageJSONHandler.isValidLanguage "en" = true
    ∧ (payloadW.map Prod.fst).Nodup
    ∧ MultiLanguageJSONHandler.merge (.obj fsW) "en" payloadW
        = .obj [("ja", .obj [("name", .str "A")]), ("en", .obj [("name", .str "p")])]
    ∧ (∃ merged : List (String × JVal),
        MultiLanguageJSONHandler.merge (.obj fsW) "en" payloadW = .obj merged
        ∧ (∀ k, k ≠ "en" → mapGet merged k = mapGet fsW k)
        ∧ ∃ inner : List (String × JVal),
            mapGet merged "en" = some (.obj inner)
            ∧ ∀ k, mapGet inner k = lookupUnion (langEntryFields fsW "en") payloadW k) :=
  ⟨by decide, by decide, rfl,
   c2_merge fsW "en" payloadW (by decide) (by decide)
     (fun v h => by simp [fsW, mapGet] at h)⟩

/-- A successful `mapGet` exhibits a member of the list. -/
theorem mapGet_mem (fs : List (String × JVal)) (k : String) (v : JVal)
    (h : mapGet fs k = some v) : (k, v) ∈ fs := by
  induction fs with
  | nil => simp [mapGet] at h
  | cons p rest ih =>
      obtain ⟨k1, v1⟩ := p
      by_cases hk : k1 = k
      · subst hk
        simp only [mapGet, if_true, eq_self_iff_true, Option.some.injEq] at h
        simp [← h]
      · simp only [mapGet, if_neg hk] at h
        exact List.mem_cons_of_mem _ (ih h)

/-- Every member of `mapSet fs k v` is the new binding or an old one. -/
theorem mem_mapSet (fs : List (String × JVal)) (k : String) (v : JVal)
    (q : String × JVal) (h : q ∈ mapSet fs k v) : q = (k, v) ∨ q ∈ fs := by
  induction fs with
  | nil => simpa [mapSet] using h
  | cons p rest ih =>
      obtain ⟨k1, v1⟩ := p
      by_cases hk : k1 = k
      · subst hk
        simp only [mapSet, if_true, eq_self_iff_true, List.mem_cons] at h
        rcases h with h | h
        · exact Or.inl h
        · exact Or.inr (List.mem_cons_of_mem _ h)
      · simp only [mapSet, if_neg hk, List.mem_cons] at h
        rcases h with h | h
        · exact Or.inr (by simp [h])
        · rcases ih h with h2 | h2
          · exact Or.inl h2
          · exact Or.inr (List.mem_cons_of_mem _ h2)

/-- Every member of `_addToCache m cache k v` is the new binding or an
old cache entry. -/
theorem mem_addToCache (m : Nat) (cache : List (String × JVal)) (k : String) (v : JVal)
    (q : String × JVal) (h : q ∈ MultiLanguageJSONHandler._addToCache m cache k v) :
    q = (k, v) ∨ q ∈ cache := by
  unfold MultiLanguageJSONHandler._addToCache at h
  rcases mem_mapSet _ _ _ _ h with h2 | h2
  · exact Or.inl h2
  · right
    by_cases hm : m ≤ cache.length
    · rw [if_pos hm] at h2
      cases hh : cache.head? with
      | none => rw [hh] at h2; exact h2
      | some p =>
          obtain ⟨fk, fv⟩ := p
          rw [hh] at h2
          exact (List.mem_filter.mp h2).1
    · rw [if_neg hm] at h2
      exact h2

/-- `mapSet` with a fresh key appends the new binding at the end. -/
theorem mapSet_eq_append_of_not_mem (fs : List (String × JVal)) (k : String) (v : JVal)
    (h : k ∉ fs.map Prod.fst) : mapSet fs k v = fs ++ [(k, v)] := by
  induction fs with
  | nil => rfl
  | cons p rest ih =>
      obtain ⟨k1, v1⟩ := p
      simp only [List.map_cons, List.mem_cons] at h
      push_neg at h
      simp [mapSet, Ne.symm h.1, ih h.2]

/-- One cached `parse` call returns exactly what the uncached `parse`
returns and preserves the cache invariant. -/
theorem parseCached_spec (enabled : Bool) (m : Nat) (jp : String → Option JVal)
    (cache : List (String × JVal)) (s : Option String) (hc : cacheOK jp cache) :
    (MultiLanguageJSONHandler.parseCached enabled m jp cache s).1
        = MultiLanguageJSONHandler.parse jp s
    ∧ cacheOK jp (MultiLanguageJSONHandler.parseCached enabled m jp cache s).2 := by
  unfold MultiLanguageJSONHandler.parseCached MultiLanguageJSONHandler.parse
  rcases s with _ | str
  · exact ⟨rfl, hc⟩
  · by_cases h : str = "" ∨ jsTrim str = ""
    · constructor
      · simp [h]
      · simpa [h] using hc
    · by_cases hhit : enabled ∧ (mapGet cache str).isSome
      · obtain ⟨v, hv⟩ := Option.isSome_iff_exists.mp hhit.2
        obtain ⟨_, _, h3, h4⟩ := hc (str, v) (mapGet_mem cache str v hv)
        constructor
        · simp [h, hhit, hv, h3, h4]
        · simpa [h, hhit] using hc
      · rcases hjp : jp str with _ | parsed
        · constructor
          · simp [h, hhit, hjp]
          · simpa [h, hhit, hjp] using hc
        · cases hpo : MultiLanguageJSONHandler.isPlainObject parsed
          · constructor
            · simp [h, hhit, hjp, hpo]
            · simpa [h, hhit, hjp, hpo] using hc
          · constructor
            · simp [h, hhit, hjp, hpo]
            · simp only [h, hhit, hjp, hpo, if_neg, if_pos, if_false, ite_false]
              push_neg at h
              cases enabled with
              | false => simpa [hjp, hpo, h, hhit] using hc
              | true =>
                  simp only [hjp, hpo, h, hhit, if_true, ite_true, ite_false, if_false]
                  intro p hp
                  rcases mem_addToCache m cache str parsed p
                      (by simpa [hjp, hpo, h, hhit] using hp) with h2 | h2
                  · subst h2
                    exact ⟨h.1, h.2, hjp, hpo⟩
                  · exact hc p h2

/-- A run of cached `parse` calls yields exactly the uncached results
and preserves the invariant. -/
theorem runParses_spec (enabled : Bool) (m : Nat) (jp : String → Option JVal)
    (cache : List (String × JVal)) (inputs : List (Option String))
    (hc : cacheOK jp cache) :
    (runParses enabled m jp cache inputs).1
        = inputs.map (MultiLanguageJSONHandler.parse jp)
    ∧ cacheOK jp (runParses enabled m jp cache inputs).2 := by
  induction inputs generalizing cache with
  | nil => exact ⟨rfl, hc⟩
  | cons i rest ih =>
      obtain ⟨h1, h2⟩ := parseCached_spec enabled m jp cache i hc
      obtain ⟨h3, h4⟩ := ih _ h2
      exact ⟨by simp [runParses, h1, h3], h4⟩

/-- C9: the bounded parse cache is a pure optimization — starting from
any cache satisfying the invariant (in particular the empty one), a run
with the cache enabled returns exactly the same values as a run with it
disabled, both equal to the uncached `parse` on each input; and when
the cache is full, `_addToCache` evicts precisely the oldest-inserted
entry (the head of the insertion-ordered list). -/
theorem c9_cache_transparent (jp : String → Option JVal) (m : Nat)
    (cache : List (String × JVal)) (inputs : List (Option String))
    (hc : cacheOK jp cache) :
    (runParses true m jp cache inputs).1
        = inputs.map (MultiLanguageJSONHandler.parse jp)
    ∧ (runParses false m jp cache inputs).1
        = inputs.map (MultiLanguageJSONHandler.parse jp)
    ∧ (∀ (k : String) (v : JVal), m ≤ cache.length → (cache.map Prod.fst).Nodup →
        k ∉ cache.map Prod.fst →
        MultiLanguageJSONHandler._addToCache m cache k v = cache.tail ++ [(k, v)]) := by
  refine ⟨(runParses_spec true m jp cache inputs hc).1,
    (runParses_spec false m jp cache inputs hc).1, ?_⟩
  intro k v hlen hnodup hk
  unfold MultiLanguageJSONHandler._addToCache
  cases cache with
  | nil =>
      simp [mapSet]
  | cons p rest =>
      obtain ⟨k0, v0⟩ := p
      simp only [List.map_cons, List.nodup_cons] at hnodup
      simp only [List.map_cons, List.mem_cons] at hk
      push_neg at hk
      have hrest : List.filter (fun e => decide (e.1 ≠ k0)) rest = rest :=
        List.filter_eq_self.mpr (fun e he => by
          have hne : e.1 ≠ k0 := fun hek => hnodup.1 (hek ▸ List.mem_map_of_mem Prod.fst he)
          simpa using hne)
      have hfilter : List.filter (fun e => decide (e.1 ≠ k0)) ((k0, v0) :: rest)
          = rest := by
        simp [List.filter_cons, hrest]
        intro a b hab hak
        exact hnodup.1 (hak ▸ List.mem_map_of_mem Prod.fst hab)
      have hset : mapSet rest k v = rest ++ [(k, v)] :=
        mapSet_eq_append_of_not_mem rest k v hk.2
      rw [if_pos hlen]
      simp only [List.head?_cons]
      rw [hfilter, hset]
      rfl

/-- Witness for C9: from the empty cache, a cached run over a repeated
object text and a failing text returns the uncached results; on a full
two-entry cache the oldest entry (`OJ`) is the one evicted. -/
theorem c9_cache_transparent_witness :
    cacheOK jp0 []
    ∧ (runParses true 100 jp0 [] [some objText, some objText, some "not json"]).1
        = [objVal, objVal, .obj []]
    ∧ MultiLanguageJSONHandler._addToCache 2 cacheW "K" (.obj [])
        = [(objText, objVal), ("K", .obj [])] := by
  have hempty : cacheOK jp0 [] := fun p hp => absurd hp (List.not_mem_nil p)
  have hcW : cacheOK jp0 cacheW := by
    intro p hp
    simp only [cacheW, List.mem_cons, List.not_mem_nil, or_false] at hp
    rcases hp with rfl | rfl
    · exact ⟨by decide, by decide, rfl, rfl⟩
    · exact ⟨by decide, by decide, rfl, rfl⟩
  refine ⟨hempty, ?_, ?_⟩
  · exact (c9_cache_transparent jp0 100 [] [some objText, some objText, some "not json"]
      hempty).1
  · exact (c9_cache_transparent jp0 2 cacheW [] hcW).2.2 "K" (.obj [])
      (by decide) (by decide) (by decide)
